import Mathlib

/-!
Verification of the linked-list container specification.

A shallow embedding of the singly linked list container with pluggable
allocation (list/node/iterator data model and the nine core operations),
together with proofs of the testable properties stated in the design
specification.  The repository ships only the test driver
(`linked_list_test_program.c`) and the build script; the implementation
translation unit `linked_list.c` and its header are not part of the
sources, so every operation below is modelled from the specification's
operation contracts (sections 3, 4, 6 and 7 of the design document) and
checked for consistency with the behaviour the test driver demands.

Conventions of the embedding:
* the element type (a fixed-width unsigned scalar) is modelled as `Nat`
  (no arithmetic is ever performed on element values);
* a possibly-NULL `struct linked_list *` or `struct iterator *` handle is
  an `Option`;
* the allocator registry is modelled by a `Bool` oracle passed to every
  operation that performs exactly one allocation (`true` = the registered
  allocate call succeeds, `false` = it returns NULL);
* release calls through the registry are modelled by returning the number
  of node releases and structure releases an operation performs;
* the acyclic node chain owned by a list is an inductive value, so a
  traversal of the model always terminates, mirroring the no-cycle
  invariant of the data model section.
-/

set_option autoImplicit false

namespace LinkedListSpec

/-- Modelled from the spec: `struct node` of the missing `linked_list.h` —
a single list cell holding one value (`data`) and ownership of the
remainder of the chain (`next`, absent for the last node). -/
inductive node where
  | mk (data : Nat) (next : Option node)

/-- The stored value of a node (the `data` field). -/
def node.data : node → Nat
  | node.mk d _ => d

/-- The successor field of a node (the `next` field, `none` for NULL). -/
def node.next : node → Option node
  | node.mk _ n => n

/-- Modelled from the spec: `struct linked_list` of the missing
`linked_list.h` — the owning handle, holding the head node reference
(absent for the empty list). -/
structure linked_list where
  head : Option node

/-- Modelled from the spec: `struct iterator` of the missing
`linked_list.h` — a non-owning cursor: the referenced node, the snapshot
`data` of that node's value, and the 0-based `current_index`. -/
structure iterator where
  current : node
  data : Nat
  current_index : Nat

/-- The reserved "not found" sentinel returned by `linked_list_find`,
`SIZE_MAX` of a 64-bit `size_t`. -/
def SIZE_MAX : Nat := 2 ^ 64 - 1

/-- Number of nodes in a chain (derived by traversal; the list caches no
size). -/
def node.count : node → Nat
  | node.mk _ none => 1
  | node.mk _ (some n) => 1 + n.count

/-- Element count of a list, derived by traversing from the head. -/
def linked_list.count (l : linked_list) : Nat :=
  match l.head with
  | none => 0
  | some n => n.count

/-- The chain read head-to-tail as a Lean list of values; specification
device for stating ordering properties. -/
def node.toList : node → List Nat
  | node.mk d none => [d]
  | node.mk d (some n) => d :: n.toList

/-- The list's values in head-to-tail order. -/
def linked_list.toList (l : linked_list) : List Nat :=
  match l.head with
  | none => []
  | some n => n.toList

/-- Modelled from the spec: `linked_list_create` of the missing
`linked_list.c` — allocates a new empty list via the registry (head
absent); returns NULL if the allocation fails. -/
def linked_list_create (allocOk : Bool) : Option linked_list :=
  if allocOk then some ⟨none⟩ else none

/-- Modelled from the spec: `linked_list_insert_front` of the missing
`linked_list.c` — fails (false) if the handle is absent or the node
allocation fails; otherwise links a new node holding the value as the new
head, the old head becoming its successor. -/
def linked_list_insert_front :
    Option linked_list → Nat → Bool → Bool × Option linked_list
  | none, _, _ => (false, none)
  | some l, _, false => (false, some l)
  | some l, v, true => (true, some ⟨some (node.mk v l.head)⟩)

/-- Walk to the current tail of a chain and link a new node holding the
value as the new tail. -/
def node.append (v : Nat) : node → node
  | node.mk d none => node.mk d (some (node.mk v none))
  | node.mk d (some n) => node.mk d (some (n.append v))

/-- Modelled from the spec: `linked_list_insert_end` of the missing
`linked_list.c` — fails (false) if the handle is absent or the node
allocation fails; otherwise walks to the current tail (or sets the head
if the list is empty) and links the new node as the new tail. -/
def linked_list_insert_end :
    Option linked_list → Nat → Bool → Bool × Option linked_list
  | none, _, _ => (false, none)
  | some l, _, false => (false, some l)
  | some l, v, true =>
    match l.head with
    | none => (true, some ⟨some (node.mk v none)⟩)
    | some n => (true, some ⟨some (n.append v)⟩)

/-- Walk `i` nodes into the chain and splice a new node holding the value
right after the node reached (used by indexed insert for index `i + 1`;
the caller guarantees `i` is within the chain, the out-of-range fallback
leaves the chain unchanged). -/
def node.spliceAfter : node → Nat → Nat → node
  | node.mk d nx, 0, v => node.mk d (some (node.mk v nx))
  | node.mk d none, _ + 1, _ => node.mk d none
  | node.mk d (some n), i + 1, v => node.mk d (some (n.spliceAfter i v))

/-- Modelled from the spec: `linked_list_insert` of the missing
`linked_list.c` — fails (false) if the handle is absent, if the node
allocation fails, or if the index exceeds the current element count
(index equal to the count is valid); on success it treats index 0 as a
head insertion and otherwise walks to the node at index − 1 and splices
the new node after it. -/
def linked_list_insert :
    Option linked_list → Nat → Nat → Bool → Bool × Option linked_list
  | none, _, _, _ => (false, none)
  | some l, _, _, false => (false, some l)
  | some l, i, v, true =>
    if l.count < i then (false, some l)
    else if i = 0 then (true, some ⟨some (node.mk v l.head)⟩)
    else
      match l.head with
      | none => (false, some l)
      | some n => (true, some ⟨some (n.spliceAfter (i - 1) v)⟩)

/-- Head-to-tail search for the first node holding the value, carrying the
0-based index of the node currently visited; yields the sentinel when the
chain is exhausted. -/
def node.find : node → Nat → Nat → Nat
  | node.mk d nx, v, i =>
    if d = v then i
    else
      match nx with
      | none => SIZE_MAX
      | some n => n.find v (i + 1)

/-- Modelled from the spec: `linked_list_find` of the missing
`linked_list.c` — returns the 0-based index of the first node (in
head-to-tail order) whose value equals the argument; returns the reserved
`SIZE_MAX` sentinel if the handle is absent or no node matches. -/
def linked_list_find : Option linked_list → Nat → Nat
  | none, _ => SIZE_MAX
  | some l, v =>
    match l.head with
    | none => SIZE_MAX
    | some n => n.find v 0

/-- Walk `i` nodes forward from a node; `none` when the chain ends first. -/
def node.walk : node → Nat → Option node
  | n, 0 => some n
  | node.mk _ none, _ + 1 => none
  | node.mk _ (some n), i + 1 => n.walk i

/-- Modelled from the spec: `linked_list_create_iterator` of the missing
`linked_list.c` — fails (returns NULL) if the handle is absent, the list
is empty, or `start_index` is out of bounds (≥ element count, detected by
the walk running off the chain); otherwise yields an iterator positioned
at the node located at `start_index`, with `current_index = start_index`
and `data` equal to that node's value. -/
def linked_list_create_iterator : Option linked_list → Nat → Option iterator
  | none, _ => none
  | some l, si =>
    match l.head with
    | none => none
    | some n =>
      match n.walk si with
      | none => none
      | some m => some ⟨m, m.data, si⟩

/-- Modelled from the spec: `linked_list_iterate` of the missing
`linked_list.c` — fails (false) if the handle is absent or the current
node has no successor, leaving the iterator's visible fields unchanged;
otherwise advances to the successor node, updates `data` to its value,
increments `current_index`, and returns true. -/
def linked_list_iterate : Option iterator → Bool × Option iterator
  | none => (false, none)
  | some it =>
    match it.current.next with
    | none => (false, some it)
    | some n => (true, some ⟨n, n.data, it.current_index + 1⟩)

/-- Modelled from the spec: `linked_list_delete_iterator` of the missing
`linked_list.c` — fails (false) if the handle is absent; otherwise
releases only the iterator's own storage (never the referenced list or
nodes) and returns true.  The second component counts the release calls
performed through the registry. -/
def linked_list_delete_iterator : Option iterator → Bool × Nat
  | none => (false, 0)
  | some _ => (true, 1)

/-- Release every node of a chain through the registry, one release call
per node; yields the number of release calls performed. -/
def node.releaseAll : node → Nat
  | node.mk _ none => 1
  | node.mk _ (some n) => 1 + n.releaseAll

/-- Modelled from the spec: `linked_list_delete` of the missing
`linked_list.c` — fails (false) if the handle is absent; otherwise
traverses the chain releasing every node via the registry (a no-op
traversal for an empty list), then releases the list structure itself and
returns true.  The result carries the status, the number of node release
calls, and the number of list-structure release calls. -/
def linked_list_delete : Option linked_list → Bool × Nat × Nat
  | none => (false, 0, 0)
  | some l =>
    match l.head with
    | none => (true, 0, 1)
    | some n => (true, n.releaseAll, 1)

/-- Fold a whole sequence of `insert_end` calls (all with a working
allocator) over a list handle, in call order. -/
def insertEndAll (l : Option linked_list) (vs : List Nat) :
    Option linked_list :=
  vs.foldl (fun acc v => (linked_list_insert_end acc v true).2) l

/-- Fold a whole sequence of `insert_front` calls (all with a working
allocator) over a list handle, in call order. -/
def insertFrontAll (l : Option linked_list) (vs : List Nat) :
    Option linked_list :=
  vs.foldl (fun acc v => (linked_list_insert_front acc v true).2) l

/-- Advance an iterator handle `k` times with `linked_list_iterate`. -/
def advanceN : Option iterator → Nat → Option iterator
  | it, 0 => it
  | it, k + 1 => advanceN (linked_list_iterate it).2 k

/-- The `(current_index, data)` pairs observed on an iterator handle when
reading it and then advancing `k` times, reading after each advance (the
observation loop of the test driver). -/
def iterTrace : Option iterator → Nat → List (Nat × Nat)
  | none, _ => []
  | some it, 0 => [(it.current_index, it.data)]
  | some it, k + 1 =>
    (it.current_index, it.data) :: iterTrace (linked_list_iterate (some it)).2 k

/-! Basic chain lemmas. -/

theorem node.toList_ne_nil : (n : node) → n.toList ≠ []
  | node.mk _ none => by simp [node.toList]
  | node.mk _ (some _) => by simp [node.toList]

theorem node.length_toList : (n : node) → n.toList.length = n.count
  | node.mk _ none => rfl
  | node.mk _ (some m) => by
      simp [node.toList, node.count, node.length_toList m, Nat.add_comm]

theorem node.count_pos : (n : node) → 0 < n.count
  | node.mk _ none => Nat.one_pos
  | node.mk _ (some m) => by simp [node.count]

theorem node.head_toList : (n : node) → n.toList.head? = some n.data
  | node.mk _ none => rfl
  | node.mk _ (some _) => rfl

theorem linked_list.toList_length_count (l : linked_list) :
    l.toList.length = l.count := by
  cases l with
  | mk h =>
    cases h with
    | none => rfl
    | some n => simpa [linked_list.toList, linked_list.count] using n.length_toList

theorem linked_list.toList_eq_nil (l : linked_list) :
    l.toList = [] ↔ l.head = none := by
  cases l with
  | mk h =>
    cases h with
    | none => simp [linked_list.toList]
    | some n => simp [linked_list.toList, n.toList_ne_nil]

theorem node.append_toList (v : Nat) :
    (n : node) → (n.append v).toList = n.toList ++ [v]
  | node.mk _ none => rfl
  | node.mk d (some m) => by
      simp [node.append, node.toList, node.append_toList v m]

theorem linked_list.cons_toList (l : linked_list) (v : Nat) :
    (linked_list.mk (some (node.mk v l.head))).toList = v :: l.toList := by
  cases l with
  | mk h => cases h <;> rfl

theorem node.spliceAfter_toList (v : Nat) :
    (n : node) → (i : Nat) → i < n.count →
      (n.spliceAfter i v).toList =
        n.toList.take (i + 1) ++ v :: n.toList.drop (i + 1)
  | node.mk _ none, 0, _ => rfl
  | node.mk _ (some _), 0, _ => rfl
  | node.mk _ none, _ + 1, h => by simp [node.count] at h
  | node.mk d (some m), i + 1, h => by
      have hm : i < m.count := by
        simp [node.count] at h; omega
      simp [node.spliceAfter, node.toList, node.spliceAfter_toList v m i hm]

theorem node.spliceAfter_last (v : Nat) :
    (n : node) → n.spliceAfter (n.count - 1) v = n.append v
  | node.mk _ none => rfl
  | node.mk d (some m) => by
      have h1 : (node.mk d (some m)).count - 1 = (m.count - 1) + 1 := by
        have := m.count_pos
        simp [node.count]; omega
      rw [h1]
      simp [node.spliceAfter, node.append, node.spliceAfter_last v m]

theorem node.walk_zero : (n : node) → n.walk 0 = some n
  | node.mk _ none => rfl
  | node.mk _ (some _) => rfl

theorem node.walk_isSome :
    (n : node) → (i : Nat) → ((n.walk i).isSome ↔ i < n.count)
  | n, 0 => by
      simpa [node.walk] using n.count_pos
  | node.mk _ none, i + 1 => by simp [node.walk, node.count]
  | node.mk d (some m), i + 1 => by
      have h := node.walk_isSome m i
      simp only [node.walk, node.count]
      rw [h]
      omega

theorem node.walk_toList :
    (n : node) → (i : Nat) → (m : node) → n.walk i = some m →
      m.toList = n.toList.drop i
  | _, 0, _, h => by
      simp [node.walk] at h; subst h; rfl
  | node.mk _ none, _ + 1, _, h => by simp [node.walk] at h
  | node.mk d (some p), i + 1, m, h => by
      simp only [node.walk] at h
      simpa [node.toList] using node.walk_toList p i m h

theorem List.head_drop_get (l : List Nat) (n : Nat) :
    (l.drop n).head? = l.get? n := by
  rw [List.get?_eq_getElem?, List.head?_eq_getElem?, List.getElem?_drop]
  simp

theorem node.find_spec (v : Nat) :
    (n : node) → (i : Nat) →
      n.find v i = if v ∈ n.toList then i + n.toList.indexOf v else SIZE_MAX
  | node.mk d none, i => by
      by_cases h : d = v
      · subst h
        simp [node.find, node.toList, List.indexOf_cons_self]
      · simp [node.find, node.toList, h, Ne.symm h]
  | node.mk d (some m), i => by
      by_cases h : d = v
      · subst h
        simp [node.find, node.toList, List.indexOf_cons_self]
      · have ih := node.find_spec v m (i + 1)
        simp only [node.find, if_neg h, ih, node.toList, List.mem_cons]
        by_cases hv : v ∈ m.toList
        · simp only [hv, or_true, if_pos, List.indexOf_cons_ne _ h]
          omega
        · simp [hv, Ne.symm h]

theorem iterTrace_spec :
    (n : node) → (i k : Nat) → k < n.count →
      iterTrace (some ⟨n, n.data, i⟩) k = (List.range' i (k + 1)).zip n.toList
  | node.mk d none, i, 0, _ => by
      simp [iterTrace, List.range'_succ, node.toList, node.data]
  | node.mk d (some m), i, 0, _ => by
      simp [iterTrace, List.range'_succ, node.toList, node.data]
  | node.mk _ none, _, k + 1, h => by simp [node.count] at h
  | node.mk d (some m), i, k + 1, h => by
      have hm : k < m.count := by
        simp [node.count] at h; omega
      have ih := iterTrace_spec m (i + 1) k hm
      simp only [iterTrace, linked_list_iterate, node.next]
      rw [ih]
      simp [node.data, node.toList, List.range'_succ]

theorem insert_end_step (l : linked_list) (v : Nat) :
    ∃ l2, linked_list_insert_end (some l) v true = (true, some l2) ∧
      l2.toList = l.toList ++ [v] := by
  cases l with
  | mk h =>
    cases h with
    | none => exact ⟨⟨some (node.mk v none)⟩, rfl, rfl⟩
    | some n =>
      refine ⟨⟨some (n.append v)⟩, rfl, ?_⟩
      simpa [linked_list.toList] using n.append_toList v

theorem insertEndAll_toList :
    (vs : List Nat) → (l : linked_list) →
      ∃ l2, insertEndAll (some l) vs = some l2 ∧ l2.toList = l.toList ++ vs
  | [], l => ⟨l, rfl, by simp⟩
  | v :: vs, l => by
      obtain ⟨l1, h1, e1⟩ := insert_end_step l v
      obtain ⟨l2, h2, e2⟩ := insertEndAll_toList vs l1
      refine ⟨l2, ?_, ?_⟩
      · have hs : (linked_list_insert_end (some l) v true).2 = some l1 := by
          rw [h1]
        simpa [insertEndAll, List.foldl_cons, hs] using h2
      · rw [e2, e1]
        simp

theorem insertFrontAll_toList :
    (vs : List Nat) → (l : linked_list) →
      ∃ l2, insertFrontAll (some l) vs = some l2 ∧
        l2.toList = vs.reverse ++ l.toList
  | [], l => ⟨l, rfl, by simp⟩
  | v :: vs, l => by
      obtain ⟨l2, h2, e2⟩ :=
        insertFrontAll_toList vs ⟨some (node.mk v l.head)⟩
      refine ⟨l2, ?_, ?_⟩
      · simpa [insertFrontAll, List.foldl_cons, linked_list_insert_front]
          using h2
      · rw [e2, linked_list.cons_toList]
        simp

/-! The claims. -/

/-- Claim C1: for every freshly created list and every sequence of values
v1..vn inserted via `insert_end` in that order, an iterator created at
start_index 0 and advanced n−1 times yields exactly v1..vn in order, with
`current_index` taking the values 0..n−1 (the observed trace of
`(current_index, data)` pairs is exactly `(0, v1), …, (n−1, vn)`). -/
theorem C1_insert_end_iteration (vs : List Nat) (h : vs ≠ []) :
    iterTrace
        (linked_list_create_iterator
          (insertEndAll (linked_list_create true) vs) 0)
        (vs.length - 1) =
      (List.range vs.length).zip vs := by
  obtain ⟨l2, h2, e2⟩ := insertEndAll_toList vs ⟨none⟩
  have hcreate : linked_list_create true = some (⟨none⟩ : linked_list) := rfl
  rw [hcreate, h2]
  have e2' : l2.toList = vs := by simpa using e2
  obtain ⟨hd⟩ := l2
  cases hd with
  | none =>
      exact absurd (by simpa [linked_list.toList] using e2'.symm) h
  | some n =>
      have hn : n.toList = vs := by
        simpa [linked_list.toList] using e2'
      have hiter :
          linked_list_create_iterator (some ⟨some n⟩) 0 =
            some ⟨n, n.data, 0⟩ := by
        simp [linked_list_create_iterator, node.walk_zero]
      rw [hiter]
      have hlen : 0 < vs.length := List.length_pos.mpr h
      have hcount : vs.length - 1 < n.count := by
        have hl : n.toList.length = n.count := n.length_toList
        rw [hn] at hl
        omega
      have harg : vs.length - 1 + 1 = vs.length := by omega
      rw [iterTrace_spec n 0 (vs.length - 1) hcount, hn, harg,
        List.range_eq_range']

/-- Witness for C1 at the concrete scenario of the specification:
insert_end 1, 2, 3, 4 and iterate from start_index 0. -/
theorem C1_witness :
    ([1, 2, 3, 4] : List Nat) ≠ [] ∧
      iterTrace
          (linked_list_create_iterator
            (insertEndAll (linked_list_create true) [1, 2, 3, 4]) 0)
          (([1, 2, 3, 4] : List Nat).length - 1) =
        (List.range ([1, 2, 3, 4] : List Nat).length).zip [1, 2, 3, 4] :=
  ⟨by decide, C1_insert_end_iteration [1, 2, 3, 4] (by decide)⟩

/-- Claim C2: for every freshly created list and every sequence of values
v1..vn inserted via `insert_front` in that call order, the resulting
front-to-back element order is vn..v1. -/
theorem C2_insert_front_reversal (vs : List Nat) :
    ∃ l, insertFrontAll (linked_list_create true) vs = some l ∧
      l.toList = vs.reverse := by
  obtain ⟨l2, h2, e2⟩ := insertFrontAll_toList vs ⟨none⟩
  exact ⟨l2, h2, by simpa [linked_list.toList] using e2⟩

/-- Claim C3: `insert(list, i, v)` succeeds iff `0 ≤ i ≤ count`; inserting
at `i = count` produces the same result as `insert_end`; inserting at
`i = 0` produces the same result as `insert_front`; in particular
`insert(list, 1, v)` on a freshly created (empty) list fails. -/
theorem C3_insert_index_semantics (l : linked_list) (i v : Nat) :
    ((linked_list_insert (some l) i v true).1 = true ↔ i ≤ l.count)
  ∧ linked_list_insert (some l) l.count v true =
      linked_list_insert_end (some l) v true
  ∧ linked_list_insert (some l) 0 v true =
      linked_list_insert_front (some l) v true
  ∧ (linked_list_insert (linked_list_create true) 1 v true).1 = false := by
  refine ⟨?_, ?_, ?_, ?_⟩
  · obtain ⟨hd⟩ := l
    cases hd with
    | none =>
        by_cases hi : i = 0
        · subst hi
          simp [linked_list_insert, linked_list.count]
        · simp [linked_list_insert, linked_list.count,
            Nat.pos_of_ne_zero hi]
          omega
    | some n =>
        have hc : (⟨some n⟩ : linked_list).count = n.count := rfl
        by_cases hci : n.count < i
        · simp [linked_list_insert, hc, hci]
        · by_cases hi : i = 0
          · subst hi
            simp [linked_list_insert, hc, hci]
          · simp [linked_list_insert, hc, hci, hi]
            omega
  · obtain ⟨hd⟩ := l
    cases hd with
    | none =>
        simp [linked_list_insert, linked_list_insert_end,
          linked_list.count]
    | some n =>
        have hpos := n.count_pos
        simp [linked_list_insert, linked_list_insert_end,
          linked_list.count, Nat.lt_irrefl, Nat.pos_iff_ne_zero.mp hpos,
          node.spliceAfter_last]
  · simp [linked_list_insert, linked_list_insert_front]
  · rfl

/-- Claim C4: `find(list, value)` returns the 0-based index of the first
node in head-to-tail order whose value equals the argument, and returns
the `SIZE_MAX` sentinel when the handle is absent, the list is empty, or
no node matches. -/
theorem C4_find_first_index (v : Nat) (l : linked_list) :
    linked_list_find none v = SIZE_MAX
  ∧ linked_list_find (some ⟨none⟩) v = SIZE_MAX
  ∧ linked_list_find (some l) v =
      (if v ∈ l.toList then l.toList.indexOf v else SIZE_MAX) := by
  refine ⟨rfl, rfl, ?_⟩
  obtain ⟨hd⟩ := l
  cases hd with
  | none => simp [linked_list_find, linked_list.toList]
  | some n =>
      have hs := node.find_spec v n 0
      simpa [linked_list_find, linked_list.toList] using hs

/-- Claim C5: `create_iterator(list, start_index)` returns absent iff the
handle is absent, the list is empty, or `start_index ≥` element count;
otherwise the iterator is positioned at the node at `start_index` (its
remaining chain is the suffix of the list from that node), with
`current_index = start_index` and `data` equal to that node's value. -/
theorem C5_create_iterator_contract (l : linked_list) (si : Nat) :
    linked_list_create_iterator none si = none
  ∧ (linked_list_create_iterator (some l) si = none ↔
      l.head = none ∨ l.count ≤ si)
  ∧ (∀ it, linked_list_create_iterator (some l) si = some it →
      it.current_index = si ∧ it.data = it.current.data ∧
        it.current.toList = l.toList.drop si ∧
        l.toList.get? si = some it.data) := by
  refine ⟨rfl, ?_, ?_⟩
  · obtain ⟨hd⟩ := l
    cases hd with
    | none => simp [linked_list_create_iterator]
    | some n =>
        have hc : (⟨some n⟩ : linked_list).count = n.count := rfl
        rw [hc]
        cases hwalk : n.walk si with
        | none =>
            have hb : ¬ si < n.count := fun hlt => by
              have hs := (n.walk_isSome si).mpr hlt
              rw [hwalk] at hs
              simp at hs
            simp [linked_list_create_iterator, hwalk]
            omega
        | some m =>
            have hb : si < n.count :=
              (n.walk_isSome si).mp (by rw [hwalk]; rfl)
            simp [linked_list_create_iterator, hwalk]
            omega
  · intro it hit
    obtain ⟨hd⟩ := l
    cases hd with
    | none => simp [linked_list_create_iterator] at hit
    | some n =>
        cases hwalk : n.walk si with
        | none => simp [linked_list_create_iterator, hwalk] at hit
        | some m =>
            simp only [linked_list_create_iterator, hwalk] at hit
            cases hit
            have hdrop : m.toList = n.toList.drop si :=
              n.walk_toList si m hwalk
            refine ⟨rfl, rfl, ?_, ?_⟩
            · simpa [linked_list.toList] using hdrop
            · have hl : (⟨some n⟩ : linked_list).toList = n.toList := rfl
              have hget :
                  (n.toList.drop si).head? = n.toList.get? si :=
                List.head_drop_get n.toList si
              rw [hl, ← hget, ← hdrop, m.head_toList]

/-- Witness for C5: a two-element list [5, 7] with start_index 1 yields an
iterator on the tail node, and an empty list yields no iterator. -/
theorem C5_witness :
    ((⟨node.mk 7 none, 7, 1⟩ : iterator).current_index = 1 ∧
      (⟨node.mk 7 none, 7, 1⟩ : iterator).data =
        (⟨node.mk 7 none, 7, 1⟩ : iterator).current.data ∧
      (⟨node.mk 7 none, 7, 1⟩ : iterator).current.toList =
        (⟨some (node.mk 5 (some (node.mk 7 none)))⟩ : linked_list).toList.drop 1 ∧
      (⟨some (node.mk 5 (some (node.mk 7 none)))⟩ : linked_list).toList.get? 1 =
        some (⟨node.mk 7 none, 7, 1⟩ : iterator).data) ∧
    linked_list_create_iterator (some ⟨none⟩) 0 = none :=
  ⟨(C5_create_iterator_contract ⟨some (node.mk 5 (some (node.mk 7 none)))⟩ 1).2.2
      ⟨node.mk 7 none, 7, 1⟩ rfl,
   (C5_create_iterator_contract ⟨none⟩ 0).2.1.mpr (Or.inl rfl)⟩

/-- Claim C6: `iterate(iterator)` returns false iff the handle is absent
or the current node has no successor; when it returns false on a
positioned iterator the iterator's visible fields are left unchanged (the
whole iterator is returned unmodified) and every subsequent `iterate`
call also returns false; when a successor exists it advances to it, sets
`data` to the successor's value, increments `current_index`, and returns
true. -/
theorem C6_iterate_contract (it : iterator) :
    (linked_list_iterate none).1 = false
  ∧ ((linked_list_iterate (some it)).1 = false ↔ it.current.next = none)
  ∧ (it.current.next = none →
      linked_list_iterate (some it) = (false, some it)
      ∧ ∀ k, (linked_list_iterate (advanceN (some it) k)).1 = false)
  ∧ (∀ n, it.current.next = some n →
      linked_list_iterate (some it) =
        (true, some ⟨n, n.data, it.current_index + 1⟩)) := by
  refine ⟨rfl, ?_, ?_, ?_⟩
  · cases hnx : it.current.next with
    | none => simp [linked_list_iterate, hnx]
    | some n => simp [linked_list_iterate, hnx]
  · intro hnx
    have hstep : linked_list_iterate (some it) = (false, some it) := by
      simp [linked_list_iterate, hnx]
    refine ⟨hstep, ?_⟩
    have hstay : ∀ k, advanceN (some it) k = some it := by
      intro k
      induction k with
      | zero => rfl
      | succ k ih =>
          have h1 : advanceN (some it) (k + 1) =
              advanceN (linked_list_iterate (some it)).2 k := rfl
          rw [h1, hstep]
          exact ih
    intro k
    rw [hstay k, hstep]
  · intro n hnx
    simp [linked_list_iterate, hnx]

/-- Witness for C6: on an iterator whose node has no successor, `iterate`
returns false and leaves the iterator unchanged; on one with a successor
it advances to it. -/
theorem C6_witness :
    (linked_list_iterate (some ⟨node.mk 5 none, 5, 0⟩) =
        (false, some ⟨node.mk 5 none, 5, 0⟩))
  ∧ linked_list_iterate (some ⟨node.mk 1 (some (node.mk 2 none)), 1, 0⟩) =
      (true, some ⟨node.mk 2 none, 2, 1⟩) :=
  ⟨((C6_iterate_contract ⟨node.mk 5 none, 5, 0⟩).2.2.1 rfl).1,
   (C6_iterate_contract ⟨node.mk 1 (some (node.mk 2 none)), 1, 0⟩).2.2.2
     (node.mk 2 none) rfl⟩

/-- Claim C7: every core operation passed an absent (NULL) list or
iterator handle returns its documented failure indicator: `delete`,
`insert_front`, `insert_end`, `insert`, `iterate` and `delete_iterator`
return false, `create_iterator` returns absent, and `find` returns the
`SIZE_MAX` sentinel. -/
theorem C7_null_handle_failures (v i : Nat) (a : Bool) :
    (linked_list_delete none).1 = false
  ∧ (linked_list_insert_front none v a).1 = false
  ∧ (linked_list_insert_end none v a).1 = false
  ∧ (linked_list_insert none i v a).1 = false
  ∧ (linked_list_iterate none).1 = false
  ∧ (linked_list_delete_iterator none).1 = false
  ∧ linked_list_create_iterator none i = none
  ∧ linked_list_find none v = SIZE_MAX :=
  ⟨rfl, rfl, rfl, rfl, rfl, rfl, rfl, rfl⟩

theorem node.releaseAll_toList :
    (n : node) → n.releaseAll = n.toList.length
  | node.mk _ none => rfl
  | node.mk _ (some m) => by
      simp [node.releaseAll, node.toList, node.releaseAll_toList m,
        Nat.add_comm]

/-- Claim C8: when the registered allocator fails, `create` returns a
failure indicator instead of a list handle and each insert operation that
needed a node allocation returns false; the allocation failure is
signaled by the same indicator (false) as an invalid handle at the same
call site. -/
theorem C8_allocation_failure (l : linked_list) (i v : Nat) :
    linked_list_create false = none
  ∧ (linked_list_insert_front (some l) v false).1 = false
  ∧ (linked_list_insert_end (some l) v false).1 = false
  ∧ (linked_list_insert (some l) i v false).1 = false
  ∧ (linked_list_insert_front (some l) v false).1 =
      (linked_list_insert_front none v false).1
  ∧ (linked_list_insert_end (some l) v false).1 =
      (linked_list_insert_end none v false).1
  ∧ (linked_list_insert (some l) i v false).1 =
      (linked_list_insert none i v false).1 :=
  ⟨rfl, rfl, rfl, rfl, rfl, rfl, rfl⟩

/-- Claim C9: `delete` on a present list with n elements returns true and
performs exactly n node releases plus one release of the list structure;
on an empty list it releases only the list structure (a no-op node
traversal) and returns true; on an absent handle it returns false and
releases nothing. -/
theorem C9_delete_release_counts (l : linked_list) :
    linked_list_delete (some l) = (true, l.toList.length, 1)
  ∧ linked_list_delete (some ⟨none⟩) = (true, 0, 1)
  ∧ linked_list_delete none = (false, 0, 0) := by
  refine ⟨?_, rfl, rfl⟩
  obtain ⟨hd⟩ := l
  cases hd with
  | none => rfl
  | some n =>
      simp [linked_list_delete, linked_list.toList, n.releaseAll_toList]

/-- Claim C10: the list invariant holds across the operations: a freshly
created list has an absent head; the head is absent iff the element count
(derived by traversal) is zero; the chain is an inductive (hence acyclic,
finite) sequence whose traversal `toList` has exactly `count` entries;
and each mutation places the new value exactly where the operation
dictates, preserving the relative order of the existing elements —
`insert_front` prepends, `insert_end` appends, and `insert` at index `i`
splices between the first `i` elements and the rest. -/
theorem C10_invariants (l : linked_list) (v i : Nat) :
    (∀ l0, linked_list_create true = some l0 → l0.head = none)
  ∧ (l.head = none ↔ l.count = 0)
  ∧ l.count = l.toList.length
  ∧ (∀ b l2, linked_list_insert_front (some l) v true = (b, some l2) →
      l2.toList = v :: l.toList)
  ∧ (∀ b l2, linked_list_insert_end (some l) v true = (b, some l2) →
      l2.toList = l.toList ++ [v])
  ∧ (∀ l2, linked_list_insert (some l) i v true = (true, some l2) →
      l2.toList = l.toList.take i ++ v :: l.toList.drop i) := by
  refine ⟨?_, ?_, ?_, ?_, ?_, ?_⟩
  · intro l0 h
    injection h with h1
    rw [← h1]
  · obtain ⟨hd⟩ := l
    cases hd with
    | none => simp [linked_list.count]
    | some n =>
        have := n.count_pos
        simp [linked_list.count]
        omega
  · exact (linked_list.toList_length_count l).symm
  · intro b l2 h
    have h2 : some (⟨some (node.mk v l.head)⟩ : linked_list) = some l2 :=
      congrArg Prod.snd h
    injection h2 with h3
    rw [← h3]
    exact l.cons_toList v
  · intro b l2 h
    obtain ⟨l1, h1, e1⟩ := insert_end_step l v
    rw [h1] at h
    have h2 : some l1 = some l2 := congrArg Prod.snd h
    injection h2 with h3
    rw [← h3]
    exact e1
  · intro l2 h
    obtain ⟨hd⟩ := l
    cases hd with
    | none =>
        have hc : (⟨none⟩ : linked_list).count = 0 := rfl
        by_cases hi : i = 0
        · subst hi
          simp [linked_list_insert, linked_list.count] at h
          rw [← h]
          rfl
        · simp [linked_list_insert, linked_list.count,
            Nat.pos_of_ne_zero hi] at h
    | some n =>
        have hc : (⟨some n⟩ : linked_list).count = n.count := rfl
        by_cases hci : n.count < i
        · simp [linked_list_insert, hc, hci] at h
        · by_cases hi : i = 0
          · subst hi
            simp [linked_list_insert, hc, hci] at h
            rw [← h]
            simpa using (⟨some n⟩ : linked_list).cons_toList v
          · simp [linked_list_insert, hc, hci, hi] at h
            have hcount : i - 1 < n.count := by omega
            have hs := node.spliceAfter_toList v n (i - 1) hcount
            have hone : i - 1 + 1 = i := by omega
            rw [hone] at hs
            rw [← h]
            simpa [linked_list.toList] using hs

/-- Witness for C10: the fresh list has an absent head, and `insert` at
index 1 of the one-element list [1] splices the value 2 right after the
head. -/
theorem C10_witness :
    (⟨none⟩ : linked_list).head = none ∧
      (⟨some (node.mk 1 (some (node.mk 2 none)))⟩ : linked_list).toList =
        (⟨some (node.mk 1 none)⟩ : linked_list).toList.take 1 ++
          2 :: (⟨some (node.mk 1 none)⟩ : linked_list).toList.drop 1 :=
  ⟨(C10_invariants ⟨none⟩ 0 0).1 ⟨none⟩ rfl,
   (C10_invariants ⟨some (node.mk 1 none)⟩ 2 1).2.2.2.2.2
     ⟨some (node.mk 1 (some (node.mk 2 none)))⟩ rfl⟩

end LinkedListSpec
